import Mathlib

set_option maxHeartbeats 1000000

/-!
Verification of the `awwweb` repository's schema and routing configuration.

The repository's executable surface is a declarative Postgres schema
(`app/.server/db/index.ts`: tables `users`, `sessions`, `accounts`,
`verifications` declared through the drizzle ORM) and a route auto-discovery
configuration (`app/routes.ts`).  We embed both:

* `Schema.*` transcribes the table declarations (column names, nullability,
  uniqueness, primary keys, foreign keys with their `onDelete` rules, and
  table-level unique constraints and indexes) directly from the source.
* `DBState` together with `applyOp` / `runOps` gives the standard relational
  semantics of those declarations: an insert or update fails (returns `none`)
  exactly when it would violate a declared unique or foreign-key constraint,
  and deleting a user cascades to its sessions and accounts as declared by
  `onDelete: "cascade"`.
* `segMatch` / `globSegs` give the glob semantics of the ignore patterns that
  `app/routes.ts` passes to the routing library: `*` matches any run of
  characters within one path segment and `**` matches any number of whole
  segments.
-/

namespace Awwweb

/-! ## Schema declaration embedding -/

inductive OnDeleteRule where
  | cascade
deriving DecidableEq

structure ForeignKeyRef where
  table : String
  column : String
  onDelete : Option OnDeleteRule
deriving DecidableEq

structure ColumnDef where
  name : String
  ty : String
  notNull : Bool := false
  isUnique : Bool := false
  isPrimaryKey : Bool := false
  hasDefault : Bool := false
  refreshOnUpdate : Bool := false
  fk : Option ForeignKeyRef := none
deriving DecidableEq

structure TableDef where
  name : String
  columns : List ColumnDef
  uniques : List (String × List String) := []
  indexes : List (String × List String) := []
deriving DecidableEq

/-- Modelled from the spec: the shared `primaryKeyCuid2` column helper lives in
`app/.server/utils.ts`, which is absent from the provided sources; the spec says
all primary keys are generated collision-resistant string identifiers assigned
at creation. -/
def primaryKeyCuid2 : ColumnDef :=
  { name := "id", ty := "text", notNull := true, isPrimaryKey := true, hasDefault := true }

/-- Modelled from the spec: the shared `createdAtTimestamp` column helper lives
in `app/.server/utils.ts`, absent from the provided sources; the spec says the
creation timestamp is set once at insert (time-zone-aware semantics). -/
def createdAtTimestamp : ColumnDef :=
  { name := "created_at", ty := "timestamptz", notNull := true, hasDefault := true }

/-- Modelled from the spec: the shared `updatedAtTimestamp` column helper lives
in `app/.server/utils.ts`, absent from the provided sources; the spec says the
update timestamp is refreshed on every write. -/
def updatedAtTimestamp : ColumnDef :=
  { name := "updated_at", ty := "timestamptz", notNull := true, hasDefault := true,
    refreshOnUpdate := true }

namespace Schema

def users : TableDef :=
  { name := "users",
    columns :=
      [ primaryKeyCuid2,
        { name := "name", ty := "text", notNull := true },
        { name := "email", ty := "text", notNull := true, isUnique := true },
        { name := "email_verified", ty := "boolean", notNull := true, hasDefault := true },
        { name := "image", ty := "text" },
        createdAtTimestamp,
        updatedAtTimestamp ] }

def sessions : TableDef :=
  { name := "sessions",
    columns :=
      [ primaryKeyCuid2,
        { name := "token", ty := "text", notNull := true, isUnique := true },
        { name := "ip_address", ty := "text" },
        { name := "user_agent", ty := "text" },
        { name := "user_id", ty := "text", notNull := true,
          fk := some { table := "users", column := "id", onDelete := some OnDeleteRule.cascade } },
        { name := "expires_at", ty := "timestamp", notNull := true },
        createdAtTimestamp,
        updatedAtTimestamp ],
    indexes := [("idx_session_user_id", ["user_id"])] }

def accounts : TableDef :=
  { name := "accounts",
    columns :=
      [ primaryKeyCuid2,
        { name := "account_id", ty := "text", notNull := true },
        { name := "provider_id", ty := "text", notNull := true },
        { name := "userId", ty := "text", notNull := true,
          fk := some { table := "users", column := "id", onDelete := some OnDeleteRule.cascade } },
        { name := "access_token", ty := "text" },
        { name := "refresh_token", ty := "text" },
        { name := "id_token", ty := "text" },
        { name := "access_token_expires_at", ty := "timestamp" },
        { name := "refresh_token_expires_at", ty := "timestamp" },
        { name := "scope", ty := "text" },
        { name := "password", ty := "text" },
        createdAtTimestamp,
        updatedAtTimestamp ],
    uniques := [("unique_account", ["provider_id", "account_id"])] }

def verifications : TableDef :=
  { name := "verifications",
    columns :=
      [ primaryKeyCuid2,
        { name := "identifier", ty := "text", notNull := true },
        { name := "value", ty := "text", notNull := true },
        { name := "expires_at", ty := "timestamp", notNull := true },
        createdAtTimestamp,
        updatedAtTimestamp ] }

end Schema

/-! ## Operational semantics of the schema

Rows mirror the `$inferSelect` row types of the four tables; timestamps are
abstract instants (`Nat`).  The state carries a freshness counter for the id
generator and a logical clock that advances on every successful write, which
models the monotonicity of real time across transactions. -/

structure UserRow where
  id : String
  name : String
  email : String
  emailVerified : Bool
  image : Option String
  createdAt : Nat
  updatedAt : Nat
deriving DecidableEq

structure SessionRow where
  id : String
  token : String
  ipAddress : Option String
  userAgent : Option String
  userId : String
  expiresAt : Nat
  createdAt : Nat
  updatedAt : Nat
deriving DecidableEq

structure AccountRow where
  id : String
  accountId : String
  providerId : String
  userId : String
  accessToken : Option String
  refreshToken : Option String
  idToken : Option String
  accessTokenExpiresAt : Option Nat
  refreshTokenExpiresAt : Option Nat
  scope : Option String
  password : Option String
  createdAt : Nat
  updatedAt : Nat
deriving DecidableEq

structure VerificationRow where
  id : String
  identifier : String
  value : String
  expiresAt : Nat
  createdAt : Nat
  updatedAt : Nat
deriving DecidableEq

/-- Insert payloads mirror `InsertUser = Omit<$inferInsert, DefaultOmit>`:
the id and both timestamps are database-assigned, never client-supplied. -/
structure InsertUser where
  name : String
  email : String
  emailVerified : Bool
  image : Option String
deriving DecidableEq

structure InsertSession where
  token : String
  ipAddress : Option String
  userAgent : Option String
  userId : String
  expiresAt : Nat
deriving DecidableEq

structure InsertAccount where
  accountId : String
  providerId : String
  userId : String
  accessToken : Option String
  refreshToken : Option String
  idToken : Option String
  accessTokenExpiresAt : Option Nat
  refreshTokenExpiresAt : Option Nat
  scope : Option String
  password : Option String
deriving DecidableEq

structure InsertVerification where
  identifier : String
  value : String
  expiresAt : Nat
deriving DecidableEq

structure DBState where
  users : List UserRow
  sessions : List SessionRow
  accounts : List AccountRow
  verifications : List VerificationRow
  nextId : Nat
  clock : Nat
deriving DecidableEq

def initState : DBState :=
  { users := [], sessions := [], accounts := [], verifications := [], nextId := 0, clock := 0 }

/-- Modelled from the spec: `primaryKeyCuid2` (in the missing
`app/.server/utils.ts`) assigns a generated collision-resistant string id at
row creation; we model the generator as an injective function of the state's
freshness counter. -/
def genId (n : Nat) : String := String.mk (List.replicate (n + 1) 'c')

def insertUser (s : DBState) (p : InsertUser) : Option DBState :=
  if ∃ u ∈ s.users, u.email = p.email then none
  else if ∃ u ∈ s.users, u.id = genId s.nextId then none
  else some { s with
    users := s.users ++
      [{ id := genId s.nextId, name := p.name, email := p.email,
         emailVerified := p.emailVerified, image := p.image,
         createdAt := s.clock, updatedAt := s.clock }],
    nextId := s.nextId + 1, clock := s.clock + 1 }

def insertSession (s : DBState) (p : InsertSession) : Option DBState :=
  if ∃ t ∈ s.sessions, t.token = p.token then none
  else if ¬ ∃ u ∈ s.users, u.id = p.userId then none
  else if ∃ t ∈ s.sessions, t.id = genId s.nextId then none
  else some { s with
    sessions := s.sessions ++
      [{ id := genId s.nextId, token := p.token, ipAddress := p.ipAddress,
         userAgent := p.userAgent, userId := p.userId, expiresAt := p.expiresAt,
         createdAt := s.clock, updatedAt := s.clock }],
    nextId := s.nextId + 1, clock := s.clock + 1 }

def insertAccount (s : DBState) (p : InsertAccount) : Option DBState :=
  if ∃ a ∈ s.accounts, a.providerId = p.providerId ∧ a.accountId = p.accountId then none
  else if ¬ ∃ u ∈ s.users, u.id = p.userId then none
  else if ∃ a ∈ s.accounts, a.id = genId s.nextId then none
  else some { s with
    accounts := s.accounts ++
      [{ id := genId s.nextId, accountId := p.accountId, providerId := p.providerId,
         userId := p.userId, accessToken := p.accessToken, refreshToken := p.refreshToken,
         idToken := p.idToken, accessTokenExpiresAt := p.accessTokenExpiresAt,
         refreshTokenExpiresAt := p.refreshTokenExpiresAt, scope := p.scope,
         password := p.password, createdAt := s.clock, updatedAt := s.clock }],
    nextId := s.nextId + 1, clock := s.clock + 1 }

def insertVerification (s : DBState) (p : InsertVerification) : Option DBState :=
  if ∃ v ∈ s.verifications, v.id = genId s.nextId then none
  else some { s with
    verifications := s.verifications ++
      [{ id := genId s.nextId, identifier := p.identifier, value := p.value,
         expiresAt := p.expiresAt, createdAt := s.clock, updatedAt := s.clock }],
    nextId := s.nextId + 1, clock := s.clock + 1 }

def updateUser (s : DBState) (uid : String) (p : InsertUser) : Option DBState :=
  if ∃ u ∈ s.users, u.email = p.email ∧ u.id ≠ uid then none
  else some { s with
    users := s.users.map (fun u =>
      if u.id = uid then
        { u with name := p.name, email := p.email, emailVerified := p.emailVerified,
                 image := p.image, updatedAt := s.clock }
      else u),
    clock := s.clock + 1 }

def updateSession (s : DBState) (sid : String) (p : InsertSession) : Option DBState :=
  if ∃ t ∈ s.sessions, t.token = p.token ∧ t.id ≠ sid then none
  else if ¬ ∃ u ∈ s.users, u.id = p.userId then none
  else some { s with
    sessions := s.sessions.map (fun t =>
      if t.id = sid then
        { t with token := p.token, ipAddress := p.ipAddress, userAgent := p.userAgent,
                 userId := p.userId, expiresAt := p.expiresAt, updatedAt := s.clock }
      else t),
    clock := s.clock + 1 }

def updateAccount (s : DBState) (aid : String) (p : InsertAccount) : Option DBState :=
  if ∃ a ∈ s.accounts, a.providerId = p.providerId ∧ a.accountId = p.accountId ∧ a.id ≠ aid
  then none
  else if ¬ ∃ u ∈ s.users, u.id = p.userId then none
  else some { s with
    accounts := s.accounts.map (fun a =>
      if a.id = aid then
        { a with accountId := p.accountId, providerId := p.providerId, userId := p.userId,
                 accessToken := p.accessToken, refreshToken := p.refreshToken,
                 idToken := p.idToken, accessTokenExpiresAt := p.accessTokenExpiresAt,
                 refreshTokenExpiresAt := p.refreshTokenExpiresAt, scope := p.scope,
                 password := p.password, updatedAt := s.clock }
      else a),
    clock := s.clock + 1 }

def updateVerification (s : DBState) (vid : String) (p : InsertVerification) : Option DBState :=
  some { s with
    verifications := s.verifications.map (fun v =>
      if v.id = vid then
        { v with identifier := p.identifier, value := p.value, expiresAt := p.expiresAt,
                 updatedAt := s.clock }
      else v),
    clock := s.clock + 1 }

/-- Deleting a user cascades to its sessions and accounts, as declared by
`onDelete: "cascade"` on both foreign keys. -/
def deleteUser (s : DBState) (uid : String) : DBState :=
  { s with
    users := s.users.filter (fun u => u.id != uid),
    sessions := s.sessions.filter (fun t => t.userId != uid),
    accounts := s.accounts.filter (fun a => a.userId != uid),
    clock := s.clock + 1 }

def deleteSession (s : DBState) (sid : String) : DBState :=
  { s with sessions := s.sessions.filter (fun t => t.id != sid), clock := s.clock + 1 }

def deleteAccount (s : DBState) (aid : String) : DBState :=
  { s with accounts := s.accounts.filter (fun a => a.id != aid), clock := s.clock + 1 }

def deleteVerification (s : DBState) (vid : String) : DBState :=
  { s with verifications := s.verifications.filter (fun v => v.id != vid), clock := s.clock + 1 }

inductive Op where
  | insUser (p : InsertUser)
  | insSession (p : InsertSession)
  | insAccount (p : InsertAccount)
  | insVerification (p : InsertVerification)
  | updUser (id : String) (p : InsertUser)
  | updSession (id : String) (p : InsertSession)
  | updAccount (id : String) (p : InsertAccount)
  | updVerification (id : String) (p : InsertVerification)
  | delUser (id : String)
  | delSession (id : String)
  | delAccount (id : String)
  | delVerification (id : String)
deriving DecidableEq

def applyOp (s : DBState) : Op → Option DBState
  | Op.insUser p => insertUser s p
  | Op.insSession p => insertSession s p
  | Op.insAccount p => insertAccount s p
  | Op.insVerification p => insertVerification s p
  | Op.updUser i p => updateUser s i p
  | Op.updSession i p => updateSession s i p
  | Op.updAccount i p => updateAccount s i p
  | Op.updVerification i p => updateVerification s i p
  | Op.delUser i => some (deleteUser s i)
  | Op.delSession i => some (deleteSession s i)
  | Op.delAccount i => some (deleteAccount s i)
  | Op.delVerification i => some (deleteVerification s i)

/-- A failed statement aborts and leaves the database unchanged. -/
def runOps (s : DBState) : List Op → DBState
  | [] => s
  | op :: ops => runOps ((applyOp s op).getD s) ops

def Reachable (s : DBState) : Prop := ∃ ops : List Op, runOps initState ops = s

/-- Lookup used for verification challenges: the table has no unique
constraint on `(identifier, value)`, so this returns a list. -/
def lookupVerifications (s : DBState) (idf v : String) : List VerificationRow :=
  s.verifications.filter (fun r => r.identifier == idf && r.value == v)

/-! ## Route auto-discovery configuration (`app/routes.ts`) -/

/-- The ignore patterns passed to `autoRoutes` in `app/routes.ts`. -/
def ignoredRouteFiles : List String := ["**/.*", "**/*.server.ts", "**/*.client.ts"]

/-- Glob matching of one pattern segment against one path segment:
a literal character matches itself and `*` matches any run of characters.
This is the segment semantics of the external routing library's matcher. -/
def segMatch : List Char → List Char → Bool
  | [], s => s.isEmpty
  | c :: ps, s =>
    if c = '*' then (s.tails).any (fun s2 => segMatch ps s2)
    else match s with
      | [] => false
      | d :: s2 => c == d && segMatch ps s2

/-- Glob matching over slash-separated segments: a `**` segment matches any
number of whole path segments, any other pattern segment matches exactly one
path segment via `segMatch`. -/
def globSegs : List (List Char) → List (List Char) → Bool
  | [], segs => segs.isEmpty
  | p :: ps, segs =>
    if p = ['*', '*'] then (segs.tails).any (fun rest => globSegs ps rest)
    else match segs with
      | [] => false
      | seg :: rest => segMatch p seg && globSegs ps rest

/-- Split a character list at a separator; always returns at least one
(possibly empty) segment, like splitting a path on `/`. -/
def splitChars (l : List Char) (sep : Char) : List (List Char) :=
  match l with
  | [] => [[]]
  | c :: rest =>
    let r := splitChars rest sep
    if c = sep then [] :: r
    else match r with
      | [] => [[c]]
      | seg :: segs => (c :: seg) :: segs

def splitSegs (path : String) : List (List Char) := splitChars path.data '/'

def matchesIgnore (pat : String) (path : String) : Bool :=
  globSegs (splitSegs pat) (splitSegs path)

def isIgnoredRouteFile (path : String) : Bool :=
  ignoredRouteFiles.any (fun pat => matchesIgnore pat path)

/-- A file in the routes directory produces a route exactly when no ignore
pattern matches it. -/
def producesRoute (path : String) : Bool := ! isIgnoredRouteFile path

def basename (path : String) : String := String.mk ((splitSegs path).getLastD [])

def startsWithDot (s : String) : Bool :=
  match s.data with
  | [] => false
  | c :: _ => c == '.'

def strEndsWith (s suf : String) : Bool := List.isSuffixOf suf.data s.data

/-! ## Concrete demonstration data -/

def demoUser : InsertUser :=
  { name := "Alice", email := "alice@example.com", emailVerified := false, image := none }

def demoSession : InsertSession :=
  { token := "tok1", ipAddress := none, userAgent := none, userId := genId 0, expiresAt := 99 }

def demoAccount : InsertAccount :=
  { accountId := "acc1", providerId := "github", userId := genId 0,
    accessToken := none, refreshToken := none, idToken := none,
    accessTokenExpiresAt := none, refreshTokenExpiresAt := none,
    scope := none, password := none }

def demoVerification : InsertVerification :=
  { identifier := "alice@example.com", value := "code1", expiresAt := 7 }

def demoOps : List Op :=
  [Op.insUser demoUser, Op.insSession demoSession,
   Op.insAccount demoAccount, Op.insVerification demoVerification]

def demoState : DBState := runOps initState demoOps

def dupVerOps : List Op :=
  [Op.insVerification { identifier := "a", value := "b", expiresAt := 0 },
   Op.insVerification { identifier := "a", value := "b", expiresAt := 0 }]

def dupVerState : DBState := runOps initState dupVerOps

/-! ## Invariants of reachable database states -/

/-- The constraints the schema declares, as properties of a state: primary-key
uniqueness and generator provenance of every id, uniqueness of `users.email`
and of `accounts.(provider_id, account_id)`, referential integrity of both
`user` foreign keys, and coherence of the row timestamps with the clock. -/
structure Inv (s : DBState) : Prop where
  uIds : (s.users.map UserRow.id).Nodup
  sIds : (s.sessions.map SessionRow.id).Nodup
  aIds : (s.accounts.map AccountRow.id).Nodup
  vIds : (s.verifications.map VerificationRow.id).Nodup
  uGen : ∀ u ∈ s.users, ∃ k, k < s.nextId ∧ u.id = genId k
  sGen : ∀ t ∈ s.sessions, ∃ k, k < s.nextId ∧ t.id = genId k
  aGen : ∀ a ∈ s.accounts, ∃ k, k < s.nextId ∧ a.id = genId k
  vGen : ∀ v ∈ s.verifications, ∃ k, k < s.nextId ∧ v.id = genId k
  uEmails : (s.users.map UserRow.email).Nodup
  aPairs : (s.accounts.map (fun a => (a.providerId, a.accountId))).Nodup
  sFK : ∀ t ∈ s.sessions, ∃ u ∈ s.users, u.id = t.userId
  aFK : ∀ a ∈ s.accounts, ∃ u ∈ s.users, u.id = a.userId
  uTime : ∀ u ∈ s.users, u.createdAt ≤ u.updatedAt ∧ u.updatedAt ≤ s.clock
  sTime : ∀ t ∈ s.sessions, t.createdAt ≤ t.updatedAt ∧ t.updatedAt ≤ s.clock
  aTime : ∀ a ∈ s.accounts, a.createdAt ≤ a.updatedAt ∧ a.updatedAt ≤ s.clock
  vTime : ∀ v ∈ s.verifications, v.createdAt ≤ v.updatedAt ∧ v.updatedAt ≤ s.clock

/-- How one table evolves across a single successful statement executed at
clock instant `clk`: every resulting row is an untouched old row, an updated
old row that keeps its id and `createdAt` and gets `updatedAt = clk`, or a
freshly inserted row with `createdAt = updatedAt = clk`. -/
def rowEvol {α : Type} (idOf : α → String) (cOf uOf : α → Nat)
    (old new : List α) (clk : Nat) : Prop :=
  ∀ r ∈ new, r ∈ old ∨
    (∃ r0 ∈ old, idOf r0 = idOf r ∧ cOf r0 = cOf r ∧ uOf r = clk) ∨
    (cOf r = clk ∧ uOf r = clk)

/-- How one table's id column evolves across a single successful statement:
either exactly the fresh generated id is appended (insert into this table),
or the ids are exactly unchanged (update, or a statement on another table),
or a subsequence survives (delete). -/
def idsEvol (oldIds newIds : List String) (fresh : String) : Prop :=
  newIds = oldIds ++ [fresh] ∨ newIds = oldIds ∨ newIds.Sublist oldIds

end Awwweb

namespace Awwweb

/-! ## Glob matching lemmas -/

theorem genId_injective : Function.Injective genId := by
  intro m n h
  have h2 : List.replicate (m + 1) 'c' = List.replicate (n + 1) 'c' := by
    simpa [genId] using congrArg String.data h
  have h3 := congrArg List.length h2
  simpa using h3

theorem segMatch_cons (c : Char) (ps : List Char) (s : List Char) :
    segMatch (c :: ps) s =
      if c = '*' then (s.tails).any (fun s2 => segMatch ps s2)
      else match s with
        | [] => false
        | d :: s2 => c == d && segMatch ps s2 := by
  rw [segMatch.eq_def]

theorem segMatch_star (ps : List Char) (s1 s2 : List Char) (h : segMatch ps s2 = true) :
    segMatch ('*' :: ps) (s1 ++ s2) = true := by
  have hs : s2 ∈ (s1 ++ s2).tails := (List.mem_tails _ _).2 (List.suffix_append s1 s2)
  rw [segMatch_cons, if_pos rfl, List.any_eq_true]
  exact ⟨s2, hs, h⟩

theorem segMatch_star_all (s : List Char) : segMatch ['*'] s = true := by
  simpa using segMatch_star [] s [] (by rfl)

theorem globSegs_cons (p : List Char) (ps : List (List Char)) (segs : List (List Char)) :
    globSegs (p :: ps) segs =
      if p = ['*', '*'] then (segs.tails).any (fun rest => globSegs ps rest)
      else match segs with
        | [] => false
        | seg :: rest => segMatch p seg && globSegs ps rest := by
  rw [globSegs.eq_def]

theorem globSegs_gstar_concat (p : List Char) (hp : ¬ p = ['*', '*'])
    (dirs : List (List Char)) (b : List Char) (h : segMatch p b = true) :
    globSegs [['*', '*'], p] (dirs ++ [b]) = true := by
  have hmem : [b] ∈ (dirs ++ [b]).tails := (List.mem_tails _ _).2 (List.suffix_append dirs [b])
  have hb : globSegs [p] [b] = true := by
    rw [globSegs_cons, if_neg hp]
    simp [h, globSegs]
  rw [globSegs_cons, if_pos rfl, List.any_eq_true]
  exact ⟨[b], hmem, hb⟩

theorem splitChars_ne_nil (l : List Char) (sep : Char) : ¬ splitChars l sep = [] := by
  cases l with
  | nil => simp [splitChars]
  | cons c rest =>
    rw [splitChars]
    by_cases hc : c = sep
    · simp [hc]
    · simp only [if_neg hc]
      cases splitChars rest sep <;> simp

theorem splitSegs_concat (path : String) :
    splitSegs path = (splitSegs path).dropLast ++ [(basename path).data] := by
  have h : ¬ splitSegs path = [] := splitChars_ne_nil path.data '/'
  have hb : (basename path).data = (splitSegs path).getLast h := by
    show (String.mk ((splitSegs path).getLastD [])).data = _
    rw [List.getLastD_eq_getLast?, List.getLast?_eq_getLast _ h]
    rfl
  rw [hb, List.dropLast_append_getLast h]

end Awwweb

namespace Awwweb

/-- C4: the route auto-discovery configuration excludes every file whose name
starts with a dot, ends with `.server.ts`, or ends with `.client.ts` from
producing a route; concretely, `foo.server.ts` in the routes directory
produces no route while `foo.tsx` produces one. -/
theorem c4_route_ignore_patterns :
    (∀ path : String,
        startsWithDot (basename path) = true ∨
        strEndsWith (basename path) (".server.ts") = true ∨
        strEndsWith (basename path) (".client.ts") = true →
        isIgnoredRouteFile path = true ∧ producesRoute path = false) ∧
    isIgnoredRouteFile ("foo.server.ts") = true ∧ producesRoute ("foo.server.ts") = false ∧
    producesRoute ("foo.tsx") = true := by
  refine ⟨?_, by decide, by decide, by decide⟩
  intro path h
  have hsplit := splitSegs_concat path
  have hign : ∀ pat ∈ ignoredRouteFiles, matchesIgnore pat path = true →
      isIgnoredRouteFile path = true ∧ producesRoute path = false := by
    intro pat hpat hm
    have : isIgnoredRouteFile path = true := by
      unfold isIgnoredRouteFile
      rw [List.any_eq_true]
      exact ⟨pat, hpat, hm⟩
    exact ⟨this, by simp [producesRoute, this]⟩
  rcases h with h | h | h
  · obtain ⟨rest, hcr⟩ : ∃ rest, (basename path).data = '.' :: rest := by
      unfold startsWithDot at h
      cases hd : (basename path).data with
      | nil => rw [hd] at h; simp at h
      | cons c rest =>
        rw [hd] at h
        simp only [List.cons.injEq] at h ⊢
        exact ⟨rest, by simpa using h, rfl⟩
    apply hign ("**/.*") (by simp [ignoredRouteFiles])
    unfold matchesIgnore
    rw [show splitSegs ("**/.*") = [['*', '*'], ['.', '*']] from by decide, hsplit, hcr]
    apply globSegs_gstar_concat _ (by decide)
    rw [segMatch_cons, if_neg (by decide)]
    simp [segMatch_star_all]
  · have hsuf : (".server.ts").data <:+ (basename path).data := by
      have h2 := h
      unfold strEndsWith at h2
      exact (List.isSuffixOf_iff_suffix).1 h2
    obtain ⟨s1, hs1⟩ := hsuf
    apply hign ("**/*.server.ts") (by simp [ignoredRouteFiles])
    unfold matchesIgnore
    rw [show splitSegs ("**/*.server.ts") = [['*', '*'], '*' :: (".server.ts").data] from
      by decide, hsplit, ← hs1]
    exact globSegs_gstar_concat _ (by decide) _ _ (segMatch_star _ _ _ (by decide))
  · have hsuf : (".client.ts").data <:+ (basename path).data := by
      have h2 := h
      unfold strEndsWith at h2
      exact (List.isSuffixOf_iff_suffix).1 h2
    obtain ⟨s1, hs1⟩ := hsuf
    apply hign ("**/*.client.ts") (by simp [ignoredRouteFiles])
    unfold matchesIgnore
    rw [show splitSegs ("**/*.client.ts") = [['*', '*'], '*' :: (".client.ts").data] from
      by decide, hsplit, ← hs1]
    exact globSegs_gstar_concat _ (by decide) _ _ (segMatch_star _ _ _ (by decide))

/-- Witness for C4 at concrete inputs: a dotfile in a subdirectory and a
`.server.ts` file are both excluded. -/
theorem c4_route_ignore_patterns_witness :
    startsWithDot (basename ("app/.env")) = true ∧
    isIgnoredRouteFile ("app/.env") = true ∧ producesRoute ("app/.env") = false :=
  ⟨by decide,
   (c4_route_ignore_patterns.1 ("app/.env") (Or.inl (by decide))).1,
   (c4_route_ignore_patterns.1 ("app/.env") (Or.inl (by decide))).2⟩

/-- C10: the ignore patterns only match the `.ts` extension: `foo.server.tsx`
and `foo.client.tsx` are matched by none of the three patterns and are
therefore not excluded from becoming routes. -/
theorem c10_ignore_patterns_only_match_ts :
    matchesIgnore ("**/.*") ("foo.server.tsx") = false ∧
    matchesIgnore ("**/*.server.ts") ("foo.server.tsx") = false ∧
    matchesIgnore ("**/*.client.ts") ("foo.server.tsx") = false ∧
    matchesIgnore ("**/.*") ("foo.client.tsx") = false ∧
    matchesIgnore ("**/*.server.ts") ("foo.client.tsx") = false ∧
    matchesIgnore ("**/*.client.ts") ("foo.client.tsx") = false ∧
    isIgnoredRouteFile ("foo.server.tsx") = false ∧
    isIgnoredRouteFile ("foo.client.tsx") = false ∧
    producesRoute ("foo.server.tsx") = true ∧
    producesRoute ("foo.client.tsx") = true := by
  decide

end Awwweb

namespace Awwweb

/-! ## Characterization of the database operations -/

theorem insertUser_some {s : DBState} {p : InsertUser} {s' : DBState}
    (h : insertUser s p = some s') :
    (¬ ∃ u ∈ s.users, u.email = p.email) ∧ (¬ ∃ u ∈ s.users, u.id = genId s.nextId) ∧
    s' = { s with
      users := s.users ++
        [{ id := genId s.nextId, name := p.name, email := p.email,
           emailVerified := p.emailVerified, image := p.image,
           createdAt := s.clock, updatedAt := s.clock }],
      nextId := s.nextId + 1, clock := s.clock + 1 } := by
  unfold insertUser at h
  split_ifs at h with h1 h2
  exact ⟨h1, h2, (Option.some.inj h).symm⟩

theorem insertSession_some {s : DBState} {p : InsertSession} {s' : DBState}
    (h : insertSession s p = some s') :
    (¬ ∃ t ∈ s.sessions, t.token = p.token) ∧ (∃ u ∈ s.users, u.id = p.userId) ∧
    (¬ ∃ t ∈ s.sessions, t.id = genId s.nextId) ∧
    s' = { s with
      sessions := s.sessions ++
        [{ id := genId s.nextId, token := p.token, ipAddress := p.ipAddress,
           userAgent := p.userAgent, userId := p.userId, expiresAt := p.expiresAt,
           createdAt := s.clock, updatedAt := s.clock }],
      nextId := s.nextId + 1, clock := s.clock + 1 } := by
  unfold insertSession at h
  split_ifs at h with h1 h2 h3
  exact ⟨h1, h2, h3, (Option.some.inj h).symm⟩

theorem insertAccount_some {s : DBState} {p : InsertAccount} {s' : DBState}
    (h : insertAccount s p = some s') :
    (¬ ∃ a ∈ s.accounts, a.providerId = p.providerId ∧ a.accountId = p.accountId) ∧
    (∃ u ∈ s.users, u.id = p.userId) ∧
    (¬ ∃ a ∈ s.accounts, a.id = genId s.nextId) ∧
    s' = { s with
      accounts := s.accounts ++
        [{ id := genId s.nextId, accountId := p.accountId, providerId := p.providerId,
           userId := p.userId, accessToken := p.accessToken, refreshToken := p.refreshToken,
           idToken := p.idToken, accessTokenExpiresAt := p.accessTokenExpiresAt,
           refreshTokenExpiresAt := p.refreshTokenExpiresAt, scope := p.scope,
           password := p.password, createdAt := s.clock, updatedAt := s.clock }],
      nextId := s.nextId + 1, clock := s.clock + 1 } := by
  unfold insertAccount at h
  split_ifs at h with h1 h2 h3
  exact ⟨h1, h2, h3, (Option.some.inj h).symm⟩

theorem insertVerification_some {s : DBState} {p : InsertVerification} {s' : DBState}
    (h : insertVerification s p = some s') :
    (¬ ∃ v ∈ s.verifications, v.id = genId s.nextId) ∧
    s' = { s with
      verifications := s.verifications ++
        [{ id := genId s.nextId, identifier := p.identifier, value := p.value,
           expiresAt := p.expiresAt, createdAt := s.clock, updatedAt := s.clock }],
      nextId := s.nextId + 1, clock := s.clock + 1 } := by
  unfold insertVerification at h
  split_ifs at h with h1
  exact ⟨h1, (Option.some.inj h).symm⟩

theorem updateUser_some {s : DBState} {uid : String} {p : InsertUser} {s' : DBState}
    (h : updateUser s uid p = some s') :
    (¬ ∃ u ∈ s.users, u.email = p.email ∧ ¬ u.id = uid) ∧
    s' = { s with
      users := s.users.map (fun u =>
        if u.id = uid then
          { u with name := p.name, email := p.email, emailVerified := p.emailVerified,
                   image := p.image, updatedAt := s.clock }
        else u),
      clock := s.clock + 1 } := by
  unfold updateUser at h
  split_ifs at h with h1
  exact ⟨h1, (Option.some.inj h).symm⟩

theorem updateSession_some {s : DBState} {sid : String} {p : InsertSession} {s' : DBState}
    (h : updateSession s sid p = some s') :
    (¬ ∃ t ∈ s.sessions, t.token = p.token ∧ ¬ t.id = sid) ∧
    (∃ u ∈ s.users, u.id = p.userId) ∧
    s' = { s with
      sessions := s.sessions.map (fun t =>
        if t.id = sid then
          { t with token := p.token, ipAddress := p.ipAddress, userAgent := p.userAgent,
                   userId := p.userId, expiresAt := p.expiresAt, updatedAt := s.clock }
        else t),
      clock := s.clock + 1 } := by
  unfold updateSession at h
  split_ifs at h with h1 h2
  exact ⟨h1, h2, (Option.some.inj h).symm⟩

theorem updateAccount_some {s : DBState} {aid : String} {p : InsertAccount} {s' : DBState}
    (h : updateAccount s aid p = some s') :
    (¬ ∃ a ∈ s.accounts, a.providerId = p.providerId ∧ a.accountId = p.accountId ∧ ¬ a.id = aid) ∧
    (∃ u ∈ s.users, u.id = p.userId) ∧
    s' = { s with
      accounts := s.accounts.map (fun a =>
        if a.id = aid then
          { a with accountId := p.accountId, providerId := p.providerId, userId := p.userId,
                   accessToken := p.accessToken, refreshToken := p.refreshToken,
                   idToken := p.idToken, accessTokenExpiresAt := p.accessTokenExpiresAt,
                   refreshTokenExpiresAt := p.refreshTokenExpiresAt, scope := p.scope,
                   password := p.password, updatedAt := s.clock }
        else a),
      clock := s.clock + 1 } := by
  unfold updateAccount at h
  split_ifs at h with h1 h2
  exact ⟨h1, h2, (Option.some.inj h).symm⟩

theorem updateVerification_some {s : DBState} {vid : String} {p : InsertVerification}
    {s' : DBState} (h : updateVerification s vid p = some s') :
    s' = { s with
      verifications := s.verifications.map (fun v =>
        if v.id = vid then
          { v with identifier := p.identifier, value := p.value, expiresAt := p.expiresAt,
                   updatedAt := s.clock }
        else v),
      clock := s.clock + 1 } := by
  unfold updateVerification at h
  exact (Option.some.inj h).symm

/-! ## Freshness of generated ids -/

theorem genId_fresh {α : Type} (idOf : α → String) (l : List α) (n : Nat)
    (hb : ∀ x ∈ l, ∃ k, k < n ∧ idOf x = genId k) :
    ¬ ∃ x ∈ l, idOf x = genId n := by
  rintro ⟨x, hx, hid⟩
  obtain ⟨k, hk, he⟩ := hb x hx
  have hkn : genId k = genId n := by rw [← he, hid]
  have := genId_injective hkn
  omega

theorem nodup_concat {α : Type} {l : List α} {a : α} (h : l.Nodup) (ha : a ∉ l) :
    (l ++ [a]).Nodup := by
  rw [List.nodup_append]
  refine ⟨h, List.nodup_singleton a, ?_⟩
  intro x hx hmem
  simp at hmem
  subst hmem
  exact ha hx

end Awwweb

namespace Awwweb

/-! ## Preservation of the schema invariants -/

theorem inv_initState : Inv initState := by
  constructor <;> simp [initState]

theorem inv_insertUser {s : DBState} {p : InsertUser} {s' : DBState}
    (inv : Inv s) (h : insertUser s p = some s') : Inv s' := by
  obtain ⟨hemail, hid, rfl⟩ := insertUser_some h
  refine ⟨?_, inv.sIds, inv.aIds, inv.vIds, ?_, ?_, ?_, ?_, ?_, inv.aPairs, ?_, ?_, ?_, ?_, ?_, ?_⟩
  · rw [List.map_append]
    refine nodup_concat inv.uIds ?_
    intro hmem
    rw [List.mem_map] at hmem
    obtain ⟨u, hu, he⟩ := hmem
    exact hid ⟨u, hu, he⟩
  · intro u hu
    rw [List.mem_append] at hu
    rcases hu with hu | hu
    · obtain ⟨k, hk, he⟩ := inv.uGen u hu
      exact ⟨k, by dsimp only; omega, he⟩
    · simp only [List.mem_singleton] at hu
      subst hu
      exact ⟨s.nextId, by dsimp only; omega, rfl⟩
  · intro t ht
    obtain ⟨k, hk, he⟩ := inv.sGen t ht
    exact ⟨k, by dsimp only; omega, he⟩
  · intro a ha
    obtain ⟨k, hk, he⟩ := inv.aGen a ha
    exact ⟨k, by dsimp only; omega, he⟩
  · intro v hv
    obtain ⟨k, hk, he⟩ := inv.vGen v hv
    exact ⟨k, by dsimp only; omega, he⟩
  · rw [List.map_append]
    refine nodup_concat inv.uEmails ?_
    intro hmem
    rw [List.mem_map] at hmem
    obtain ⟨u, hu, he⟩ := hmem
    exact hemail ⟨u, hu, he⟩
  · intro t ht
    obtain ⟨u, hu, he⟩ := inv.sFK t ht
    exact ⟨u, List.mem_append_left _ hu, he⟩
  · intro a ha
    obtain ⟨u, hu, he⟩ := inv.aFK a ha
    exact ⟨u, List.mem_append_left _ hu, he⟩
  · intro u hu
    rw [List.mem_append] at hu
    rcases hu with hu | hu
    · obtain ⟨h1, h2⟩ := inv.uTime u hu
      exact ⟨h1, by dsimp only; omega⟩
    · simp only [List.mem_singleton] at hu
      subst hu
      exact ⟨le_refl _, by dsimp only; omega⟩
  · intro t ht
    obtain ⟨h1, h2⟩ := inv.sTime t ht
    exact ⟨h1, by dsimp only; omega⟩
  · intro a ha
    obtain ⟨h1, h2⟩ := inv.aTime a ha
    exact ⟨h1, by dsimp only; omega⟩
  · intro v hv
    obtain ⟨h1, h2⟩ := inv.vTime v hv
    exact ⟨h1, by dsimp only; omega⟩

end Awwweb

namespace Awwweb

theorem inv_insertSession {s : DBState} {p : InsertSession} {s' : DBState}
    (inv : Inv s) (h : insertSession s p = some s') : Inv s' := by
  obtain ⟨htok, hfk, hid, rfl⟩ := insertSession_some h
  refine ⟨inv.uIds, ?_, inv.aIds, inv.vIds, ?_, ?_, ?_, ?_, inv.uEmails, inv.aPairs,
    ?_, inv.aFK, ?_, ?_, ?_, ?_⟩
  · rw [List.map_append]
    refine nodup_concat inv.sIds ?_
    intro hmem
    rw [List.mem_map] at hmem
    obtain ⟨t, ht, he⟩ := hmem
    exact hid ⟨t, ht, he⟩
  · intro u hu
    obtain ⟨k, hk, he⟩ := inv.uGen u hu
    exact ⟨k, by dsimp only; omega, he⟩
  · intro t ht
    rw [List.mem_append] at ht
    rcases ht with ht | ht
    · obtain ⟨k, hk, he⟩ := inv.sGen t ht
      exact ⟨k, by dsimp only; omega, he⟩
    · simp only [List.mem_singleton] at ht
      subst ht
      exact ⟨s.nextId, by dsimp only; omega, rfl⟩
  · intro a ha
    obtain ⟨k, hk, he⟩ := inv.aGen a ha
    exact ⟨k, by dsimp only; omega, he⟩
  · intro v hv
    obtain ⟨k, hk, he⟩ := inv.vGen v hv
    exact ⟨k, by dsimp only; omega, he⟩
  · intro t ht
    rw [List.mem_append] at ht
    rcases ht with ht | ht
    · exact inv.sFK t ht
    · simp only [List.mem_singleton] at ht
      subst ht
      exact hfk
  · intro u hu
    obtain ⟨h1, h2⟩ := inv.uTime u hu
    exact ⟨h1, by dsimp only; omega⟩
  · intro t ht
    rw [List.mem_append] at ht
    rcases ht with ht | ht
    · obtain ⟨h1, h2⟩ := inv.sTime t ht
      exact ⟨h1, by dsimp only; omega⟩
    · simp only [List.mem_singleton] at ht
      subst ht
      exact ⟨le_refl _, by dsimp only; omega⟩
  · intro a ha
    obtain ⟨h1, h2⟩ := inv.aTime a ha
    exact ⟨h1, by dsimp only; omega⟩
  · intro v hv
    obtain ⟨h1, h2⟩ := inv.vTime v hv
    exact ⟨h1, by dsimp only; omega⟩

theorem inv_insertAccount {s : DBState} {p : InsertAccount} {s' : DBState}
    (inv : Inv s) (h : insertAccount s p = some s') : Inv s' := by
  obtain ⟨hpair, hfk, hid, rfl⟩ := insertAccount_some h
  refine ⟨inv.uIds, inv.sIds, ?_, inv.vIds, ?_, ?_, ?_, ?_, inv.uEmails, ?_,
    inv.sFK, ?_, ?_, ?_, ?_, ?_⟩
  · rw [List.map_append]
    refine nodup_concat inv.aIds ?_
    intro hmem
    rw [List.mem_map] at hmem
    obtain ⟨a, ha, he⟩ := hmem
    exact hid ⟨a, ha, he⟩
  · intro u hu
    obtain ⟨k, hk, he⟩ := inv.uGen u hu
    exact ⟨k, by dsimp only; omega, he⟩
  · intro t ht
    obtain ⟨k, hk, he⟩ := inv.sGen t ht
    exact ⟨k, by dsimp only; omega, he⟩
  · intro a ha
    rw [List.mem_append] at ha
    rcases ha with ha | ha
    · obtain ⟨k, hk, he⟩ := inv.aGen a ha
      exact ⟨k, by dsimp only; omega, he⟩
    · simp only [List.mem_singleton] at ha
      subst ha
      exact ⟨s.nextId, by dsimp only; omega, rfl⟩
  · intro v hv
    obtain ⟨k, hk, he⟩ := inv.vGen v hv
    exact ⟨k, by dsimp only; omega, he⟩
  · rw [List.map_append]
    refine nodup_concat inv.aPairs ?_
    intro hmem
    rw [List.mem_map] at hmem
    obtain ⟨a, ha, he⟩ := hmem
    refine hpair ⟨a, ha, ?_, ?_⟩
    · exact congrArg Prod.fst he
    · exact congrArg Prod.snd he
  · intro a ha
    rw [List.mem_append] at ha
    rcases ha with ha | ha
    · exact inv.aFK a ha
    · simp only [List.mem_singleton] at ha
      subst ha
      exact hfk
  · intro u hu
    obtain ⟨h1, h2⟩ := inv.uTime u hu
    exact ⟨h1, by dsimp only; omega⟩
  · intro t ht
    obtain ⟨h1, h2⟩ := inv.sTime t ht
    exact ⟨h1, by dsimp only; omega⟩
  · intro a ha
    rw [List.mem_append] at ha
    rcases ha with ha | ha
    · obtain ⟨h1, h2⟩ := inv.aTime a ha
      exact ⟨h1, by dsimp only; omega⟩
    · simp only [List.mem_singleton] at ha
      subst ha
      exact ⟨le_refl _, by dsimp only; omega⟩
  · intro v hv
    obtain ⟨h1, h2⟩ := inv.vTime v hv
    exact ⟨h1, by dsimp only; omega⟩

theorem inv_insertVerification {s : DBState} {p : InsertVerification} {s' : DBState}
    (inv : Inv s) (h : insertVerification s p = some s') : Inv s' := by
  obtain ⟨hid, rfl⟩ := insertVerification_some h
  refine ⟨inv.uIds, inv.sIds, inv.aIds, ?_, ?_, ?_, ?_, ?_, inv.uEmails, inv.aPairs,
    inv.sFK, inv.aFK, ?_, ?_, ?_, ?_⟩
  · rw [List.map_append]
    refine nodup_concat inv.vIds ?_
    intro hmem
    rw [List.mem_map] at hmem
    obtain ⟨v, hv, he⟩ := hmem
    exact hid ⟨v, hv, he⟩
  · intro u hu
    obtain ⟨k, hk, he⟩ := inv.uGen u hu
    exact ⟨k, by dsimp only; omega, he⟩
  · intro t ht
    obtain ⟨k, hk, he⟩ := inv.sGen t ht
    exact ⟨k, by dsimp only; omega, he⟩
  · intro a ha
    obtain ⟨k, hk, he⟩ := inv.aGen a ha
    exact ⟨k, by dsimp only; omega, he⟩
  · intro v hv
    rw [List.mem_append] at hv
    rcases hv with hv | hv
    · obtain ⟨k, hk, he⟩ := inv.vGen v hv
      exact ⟨k, by dsimp only; omega, he⟩
    · simp only [List.mem_singleton] at hv
      subst hv
      exact ⟨s.nextId, by dsimp only; omega, rfl⟩
  · intro u hu
    obtain ⟨h1, h2⟩ := inv.uTime u hu
    exact ⟨h1, by dsimp only; omega⟩
  · intro t ht
    obtain ⟨h1, h2⟩ := inv.sTime t ht
    exact ⟨h1, by dsimp only; omega⟩
  · intro a ha
    obtain ⟨h1, h2⟩ := inv.aTime a ha
    exact ⟨h1, by dsimp only; omega⟩
  · intro v hv
    rw [List.mem_append] at hv
    rcases hv with hv | hv
    · obtain ⟨h1, h2⟩ := inv.vTime v hv
      exact ⟨h1, by dsimp only; omega⟩
    · simp only [List.mem_singleton] at hv
      subst hv
      exact ⟨le_refl _, by dsimp only; omega⟩

end Awwweb

namespace Awwweb

theorem inv_deleteUser {s : DBState} (uid : String) (inv : Inv s) : Inv (deleteUser s uid) := by
  unfold deleteUser
  refine ⟨?_, ?_, ?_, inv.vIds, ?_, ?_, ?_, ?_, ?_, ?_, ?_, ?_, ?_, ?_, ?_, ?_⟩
  · exact inv.uIds.sublist ((s.users.filter_sublist).map _)
  · exact inv.sIds.sublist ((s.sessions.filter_sublist).map _)
  · exact inv.aIds.sublist ((s.accounts.filter_sublist).map _)
  · intro u hu
    exact inv.uGen u (List.mem_filter.1 hu).1
  · intro t ht
    exact inv.sGen t (List.mem_filter.1 ht).1
  · intro a ha
    exact inv.aGen a (List.mem_filter.1 ha).1
  · intro v hv
    exact inv.vGen v hv
  · exact inv.uEmails.sublist ((s.users.filter_sublist).map _)
  · exact inv.aPairs.sublist ((s.accounts.filter_sublist).map _)
  · intro t ht
    obtain ⟨ht1, ht2⟩ := List.mem_filter.1 ht
    obtain ⟨u, hu, he⟩ := inv.sFK t ht1
    refine ⟨u, List.mem_filter.2 ⟨hu, ?_⟩, he⟩
    rw [he]
    exact ht2
  · intro a ha
    obtain ⟨ha1, ha2⟩ := List.mem_filter.1 ha
    obtain ⟨u, hu, he⟩ := inv.aFK a ha1
    refine ⟨u, List.mem_filter.2 ⟨hu, ?_⟩, he⟩
    rw [he]
    exact ha2
  · intro u hu
    obtain ⟨h1, h2⟩ := inv.uTime u (List.mem_filter.1 hu).1
    exact ⟨h1, by dsimp only; omega⟩
  · intro t ht
    obtain ⟨h1, h2⟩ := inv.sTime t (List.mem_filter.1 ht).1
    exact ⟨h1, by dsimp only; omega⟩
  · intro a ha
    obtain ⟨h1, h2⟩ := inv.aTime a (List.mem_filter.1 ha).1
    exact ⟨h1, by dsimp only; omega⟩
  · intro v hv
    obtain ⟨h1, h2⟩ := inv.vTime v hv
    exact ⟨h1, by dsimp only; omega⟩

theorem inv_deleteSession {s : DBState} (sid : String) (inv : Inv s) :
    Inv (deleteSession s sid) := by
  unfold deleteSession
  refine ⟨inv.uIds, ?_, inv.aIds, inv.vIds, inv.uGen, ?_, inv.aGen, inv.vGen,
    inv.uEmails, inv.aPairs, ?_, inv.aFK, ?_, ?_, ?_, ?_⟩
  · exact inv.sIds.sublist ((s.sessions.filter_sublist).map _)
  · intro t ht
    exact inv.sGen t (List.mem_filter.1 ht).1
  · intro t ht
    exact inv.sFK t (List.mem_filter.1 ht).1
  · intro u hu
    obtain ⟨h1, h2⟩ := inv.uTime u hu
    exact ⟨h1, by dsimp only; omega⟩
  · intro t ht
    obtain ⟨h1, h2⟩ := inv.sTime t (List.mem_filter.1 ht).1
    exact ⟨h1, by dsimp only; omega⟩
  · intro a ha
    obtain ⟨h1, h2⟩ := inv.aTime a ha
    exact ⟨h1, by dsimp only; omega⟩
  · intro v hv
    obtain ⟨h1, h2⟩ := inv.vTime v hv
    exact ⟨h1, by dsimp only; omega⟩

theorem inv_deleteAccount {s : DBState} (aid : String) (inv : Inv s) :
    Inv (deleteAccount s aid) := by
  unfold deleteAccount
  refine ⟨inv.uIds, inv.sIds, ?_, inv.vIds, inv.uGen, inv.sGen, ?_, inv.vGen,
    inv.uEmails, ?_, inv.sFK, ?_, ?_, ?_, ?_, ?_⟩
  · exact inv.aIds.sublist ((s.accounts.filter_sublist).map _)
  · intro a ha
    exact inv.aGen a (List.mem_filter.1 ha).1
  · exact inv.aPairs.sublist ((s.accounts.filter_sublist).map _)
  · intro a ha
    exact inv.aFK a (List.mem_filter.1 ha).1
  · intro u hu
    obtain ⟨h1, h2⟩ := inv.uTime u hu
    exact ⟨h1, by dsimp only; omega⟩
  · intro t ht
    obtain ⟨h1, h2⟩ := inv.sTime t ht
    exact ⟨h1, by dsimp only; omega⟩
  · intro a ha
    obtain ⟨h1, h2⟩ := inv.aTime a (List.mem_filter.1 ha).1
    exact ⟨h1, by dsimp only; omega⟩
  · intro v hv
    obtain ⟨h1, h2⟩ := inv.vTime v hv
    exact ⟨h1, by dsimp only; omega⟩

theorem inv_deleteVerification {s : DBState} (vid : String) (inv : Inv s) :
    Inv (deleteVerification s vid) := by
  unfold deleteVerification
  refine ⟨inv.uIds, inv.sIds, inv.aIds, ?_, inv.uGen, inv.sGen, inv.aGen, ?_,
    inv.uEmails, inv.aPairs, inv.sFK, inv.aFK, ?_, ?_, ?_, ?_⟩
  · exact inv.vIds.sublist ((s.verifications.filter_sublist).map _)
  · intro v hv
    exact inv.vGen v (List.mem_filter.1 hv).1
  · intro u hu
    obtain ⟨h1, h2⟩ := inv.uTime u hu
    exact ⟨h1, by dsimp only; omega⟩
  · intro t ht
    obtain ⟨h1, h2⟩ := inv.sTime t ht
    exact ⟨h1, by dsimp only; omega⟩
  · intro a ha
    obtain ⟨h1, h2⟩ := inv.aTime a ha
    exact ⟨h1, by dsimp only; omega⟩
  · intro v hv
    obtain ⟨h1, h2⟩ := inv.vTime v (List.mem_filter.1 hv).1
    exact ⟨h1, by dsimp only; omega⟩

end Awwweb

namespace Awwweb

theorem map_map_eq {α β : Type} (f : α → α) (g : α → β) (l : List α)
    (h : ∀ x, g (f x) = g x) : (l.map f).map g = l.map g := by
  induction l with
  | nil => rfl
  | cons a l ih => simp only [List.map_cons, h, ih]

theorem inv_updateUser {s : DBState} {uid : String} {p : InsertUser} {s' : DBState}
    (inv : Inv s) (h : updateUser s uid p = some s') : Inv s' := by
  obtain ⟨hchk, rfl⟩ := updateUser_some h
  have hid : ∀ u : UserRow, (if u.id = uid then
      { u with name := p.name, email := p.email, emailVerified := p.emailVerified,
               image := p.image, updatedAt := s.clock } else u).id = u.id := by
    intro u
    by_cases hc : u.id = uid <;> simp [hc]
  refine ⟨?_, inv.sIds, inv.aIds, inv.vIds, ?_, ?_, ?_, ?_, ?_, inv.aPairs,
    ?_, ?_, ?_, ?_, ?_, ?_⟩
  · rw [map_map_eq _ _ _ hid]
    exact inv.uIds
  · intro u' hu'
    rw [List.mem_map] at hu'
    obtain ⟨u, hu, rfl⟩ := hu'
    obtain ⟨k, hk, he⟩ := inv.uGen u hu
    exact ⟨k, by dsimp only; omega, by rw [hid]; exact he⟩
  · intro t ht
    obtain ⟨k, hk, he⟩ := inv.sGen t ht
    exact ⟨k, by dsimp only; omega, he⟩
  · intro a ha
    obtain ⟨k, hk, he⟩ := inv.aGen a ha
    exact ⟨k, by dsimp only; omega, he⟩
  · intro v hv
    obtain ⟨k, hk, he⟩ := inv.vGen v hv
    exact ⟨k, by dsimp only; omega, he⟩
  · have base : s.users.Pairwise (fun a b => a.email ≠ b.email ∧ a.id ≠ b.id) :=
      (List.pairwise_map.1 inv.uEmails).and (List.pairwise_map.1 inv.uIds)
    rw [List.map_map]
    refine List.pairwise_map.2 ?_
    refine List.Pairwise.imp_of_mem ?_ base
    intro a b ha hb hab
    simp only [Function.comp]
    by_cases h1 : a.id = uid <;> by_cases h2 : b.id = uid
    · exact absurd (h1.trans h2.symm) hab.2
    · simp only [if_pos h1, if_neg h2]
      intro he
      exact hchk ⟨b, hb, he.symm, h2⟩
    · simp only [if_neg h1, if_pos h2]
      intro he
      exact hchk ⟨a, ha, he, h1⟩
    · simp only [if_neg h1, if_neg h2]
      exact hab.1
  · intro t ht
    obtain ⟨u, hu, he⟩ := inv.sFK t ht
    refine ⟨_, List.mem_map_of_mem _ hu, ?_⟩
    rw [hid]
    exact he
  · intro a ha
    obtain ⟨u, hu, he⟩ := inv.aFK a ha
    refine ⟨_, List.mem_map_of_mem _ hu, ?_⟩
    rw [hid]
    exact he
  · intro u' hu'
    rw [List.mem_map] at hu'
    obtain ⟨u, hu, rfl⟩ := hu'
    obtain ⟨h1, h2⟩ := inv.uTime u hu
    by_cases hc : u.id = uid
    · simp only [if_pos hc]
      exact ⟨by omega, by omega⟩
    · simp only [if_neg hc]
      exact ⟨h1, by omega⟩
  · intro t ht
    obtain ⟨h1, h2⟩ := inv.sTime t ht
    exact ⟨h1, by dsimp only; omega⟩
  · intro a ha
    obtain ⟨h1, h2⟩ := inv.aTime a ha
    exact ⟨h1, by dsimp only; omega⟩
  · intro v hv
    obtain ⟨h1, h2⟩ := inv.vTime v hv
    exact ⟨h1, by dsimp only; omega⟩

end Awwweb

namespace Awwweb

theorem inv_updateSession {s : DBState} {sid : String} {p : InsertSession} {s' : DBState}
    (inv : Inv s) (h : updateSession s sid p = some s') : Inv s' := by
  obtain ⟨hchk, hfk, rfl⟩ := updateSession_some h
  have hid : ∀ t : SessionRow, (if t.id = sid then
      { t with token := p.token, ipAddress := p.ipAddress, userAgent := p.userAgent,
               userId := p.userId, expiresAt := p.expiresAt, updatedAt := s.clock } else t).id
        = t.id := by
    intro t
    by_cases hc : t.id = sid <;> simp [hc]
  refine ⟨inv.uIds, ?_, inv.aIds, inv.vIds, inv.uGen, ?_, ?_, ?_, inv.uEmails, inv.aPairs,
    ?_, inv.aFK, ?_, ?_, ?_, ?_⟩
  · rw [map_map_eq _ _ _ hid]
    exact inv.sIds
  · intro t' ht'
    rw [List.mem_map] at ht'
    obtain ⟨t, ht, rfl⟩ := ht'
    obtain ⟨k, hk, he⟩ := inv.sGen t ht
    exact ⟨k, by dsimp only; omega, by rw [hid]; exact he⟩
  · intro a ha
    obtain ⟨k, hk, he⟩ := inv.aGen a ha
    exact ⟨k, by dsimp only; omega, he⟩
  · intro v hv
    obtain ⟨k, hk, he⟩ := inv.vGen v hv
    exact ⟨k, by dsimp only; omega, he⟩
  · intro t' ht'
    rw [List.mem_map] at ht'
    obtain ⟨t, ht, rfl⟩ := ht'
    by_cases hc : t.id = sid
    · simp only [if_pos hc]
      exact hfk
    · simp only [if_neg hc]
      exact inv.sFK t ht
  · intro u hu
    obtain ⟨h1, h2⟩ := inv.uTime u hu
    exact ⟨h1, by dsimp only; omega⟩
  · intro t' ht'
    rw [List.mem_map] at ht'
    obtain ⟨t, ht, rfl⟩ := ht'
    obtain ⟨h1, h2⟩ := inv.sTime t ht
    by_cases hc : t.id = sid
    · simp only [if_pos hc]
      exact ⟨by omega, by omega⟩
    · simp only [if_neg hc]
      exact ⟨h1, by omega⟩
  · intro a ha
    obtain ⟨h1, h2⟩ := inv.aTime a ha
    exact ⟨h1, by dsimp only; omega⟩
  · intro v hv
    obtain ⟨h1, h2⟩ := inv.vTime v hv
    exact ⟨h1, by dsimp only; omega⟩

theorem inv_updateAccount {s : DBState} {aid : String} {p : InsertAccount} {s' : DBState}
    (inv : Inv s) (h : updateAccount s aid p = some s') : Inv s' := by
  obtain ⟨hchk, hfk, rfl⟩ := updateAccount_some h
  have hid : ∀ a : AccountRow, (if a.id = aid then
      { a with accountId := p.accountId, providerId := p.providerId, userId := p.userId,
               accessToken := p.accessToken, refreshToken := p.refreshToken,
               idToken := p.idToken, accessTokenExpiresAt := p.accessTokenExpiresAt,
               refreshTokenExpiresAt := p.refreshTokenExpiresAt, scope := p.scope,
               password := p.password, updatedAt := s.clock } else a).id = a.id := by
    intro a
    by_cases hc : a.id = aid <;> simp [hc]
  refine ⟨inv.uIds, inv.sIds, ?_, inv.vIds, inv.uGen, ?_, ?_, ?_, inv.uEmails, ?_,
    inv.sFK, ?_, ?_, ?_, ?_, ?_⟩
  · rw [map_map_eq _ _ _ hid]
    exact inv.aIds
  · intro t ht
    obtain ⟨k, hk, he⟩ := inv.sGen t ht
    exact ⟨k, by dsimp only; omega, he⟩
  · intro a' ha'
    rw [List.mem_map] at ha'
    obtain ⟨a, ha, rfl⟩ := ha'
    obtain ⟨k, hk, he⟩ := inv.aGen a ha
    exact ⟨k, by dsimp only; omega, by rw [hid]; exact he⟩
  · intro v hv
    obtain ⟨k, hk, he⟩ := inv.vGen v hv
    exact ⟨k, by dsimp only; omega, he⟩
  · have base : s.accounts.Pairwise (fun a b =>
        ¬ (a.providerId, a.accountId) = (b.providerId, b.accountId) ∧ a.id ≠ b.id) :=
      (List.pairwise_map.1 inv.aPairs).and (List.pairwise_map.1 inv.aIds)
    rw [List.map_map]
    refine List.pairwise_map.2 ?_
    refine List.Pairwise.imp_of_mem ?_ base
    intro a b ha hb hab
    simp only [Function.comp]
    by_cases h1 : a.id = aid <;> by_cases h2 : b.id = aid
    · exact absurd (h1.trans h2.symm) hab.2
    · simp only [if_pos h1, if_neg h2]
      intro he
      rw [Prod.mk.injEq] at he
      exact hchk ⟨b, hb, he.1.symm, he.2.symm, h2⟩
    · simp only [if_neg h1, if_pos h2]
      intro he
      rw [Prod.mk.injEq] at he
      exact hchk ⟨a, ha, he.1, he.2, h1⟩
    · simp only [if_neg h1, if_neg h2]
      exact hab.1
  · intro a' ha'
    rw [List.mem_map] at ha'
    obtain ⟨a, ha, rfl⟩ := ha'
    by_cases hc : a.id = aid
    · simp only [if_pos hc]
      exact hfk
    · simp only [if_neg hc]
      exact inv.aFK a ha
  · intro u hu
    obtain ⟨h1, h2⟩ := inv.uTime u hu
    exact ⟨h1, by dsimp only; omega⟩
  · intro t ht
    obtain ⟨h1, h2⟩ := inv.sTime t ht
    exact ⟨h1, by dsimp only; omega⟩
  · intro a' ha'
    rw [List.mem_map] at ha'
    obtain ⟨a, ha, rfl⟩ := ha'
    obtain ⟨h1, h2⟩ := inv.aTime a ha
    by_cases hc : a.id = aid
    · simp only [if_pos hc]
      exact ⟨by omega, by omega⟩
    · simp only [if_neg hc]
      exact ⟨h1, by omega⟩
  · intro v hv
    obtain ⟨h1, h2⟩ := inv.vTime v hv
    exact ⟨h1, by dsimp only; omega⟩

theorem inv_updateVerification {s : DBState} {vid : String} {p : InsertVerification}
    {s' : DBState} (inv : Inv s) (h : updateVerification s vid p = some s') : Inv s' := by
  have hs := updateVerification_some h
  subst hs
  have hid : ∀ v : VerificationRow, (if v.id = vid then
      { v with identifier := p.identifier, value := p.value, expiresAt := p.expiresAt,
               updatedAt := s.clock } else v).id = v.id := by
    intro v
    by_cases hc : v.id = vid <;> simp [hc]
  refine ⟨inv.uIds, inv.sIds, inv.aIds, ?_, inv.uGen, ?_, ?_, ?_, inv.uEmails, inv.aPairs,
    inv.sFK, inv.aFK, ?_, ?_, ?_, ?_⟩
  · rw [map_map_eq _ _ _ hid]
    exact inv.vIds
  · intro t ht
    obtain ⟨k, hk, he⟩ := inv.sGen t ht
    exact ⟨k, by dsimp only; omega, he⟩
  · intro a ha
    obtain ⟨k, hk, he⟩ := inv.aGen a ha
    exact ⟨k, by dsimp only; omega, he⟩
  · intro v' hv'
    rw [List.mem_map] at hv'
    obtain ⟨v, hv, rfl⟩ := hv'
    obtain ⟨k, hk, he⟩ := inv.vGen v hv
    exact ⟨k, by dsimp only; omega, by rw [hid]; exact he⟩
  · intro u hu
    obtain ⟨h1, h2⟩ := inv.uTime u hu
    exact ⟨h1, by dsimp only; omega⟩
  · intro t ht
    obtain ⟨h1, h2⟩ := inv.sTime t ht
    exact ⟨h1, by dsimp only; omega⟩
  · intro a ha
    obtain ⟨h1, h2⟩ := inv.aTime a ha
    exact ⟨h1, by dsimp only; omega⟩
  · intro v' hv'
    rw [List.mem_map] at hv'
    obtain ⟨v, hv, rfl⟩ := hv'
    obtain ⟨h1, h2⟩ := inv.vTime v hv
    by_cases hc : v.id = vid
    · simp only [if_pos hc]
      exact ⟨by omega, by omega⟩
    · simp only [if_neg hc]
      exact ⟨h1, by omega⟩

end Awwweb

namespace Awwweb

theorem inv_applyOp {s : DBState} {op : Op} {s' : DBState} (inv : Inv s)
    (h : applyOp s op = some s') : Inv s' := by
  cases op with
  | insUser p => exact inv_insertUser inv h
  | insSession p => exact inv_insertSession inv h
  | insAccount p => exact inv_insertAccount inv h
  | insVerification p => exact inv_insertVerification inv h
  | updUser i p => exact inv_updateUser inv h
  | updSession i p => exact inv_updateSession inv h
  | updAccount i p => exact inv_updateAccount inv h
  | updVerification i p => exact inv_updateVerification inv h
  | delUser i => exact (Option.some.inj h) ▸ inv_deleteUser i inv
  | delSession i => exact (Option.some.inj h) ▸ inv_deleteSession i inv
  | delAccount i => exact (Option.some.inj h) ▸ inv_deleteAccount i inv
  | delVerification i => exact (Option.some.inj h) ▸ inv_deleteVerification i inv

theorem inv_runOps (ops : List Op) : ∀ s : DBState, Inv s → Inv (runOps s ops) := by
  induction ops with
  | nil => intro s h; exact h
  | cons op ops ih =>
    intro s h
    show Inv (runOps ((applyOp s op).getD s) ops)
    cases hap : applyOp s op with
    | none => exact ih s h
    | some s1 => exact ih s1 (inv_applyOp h hap)

theorem reachable_inv {s : DBState} (h : Reachable s) : Inv s := by
  obtain ⟨ops, rfl⟩ := h
  exact inv_runOps ops initState inv_initState

end Awwweb

namespace Awwweb

theorem rowEvol_users {s : DBState} {op : Op} {s' : DBState} (h : applyOp s op = some s') :
    rowEvol UserRow.id UserRow.createdAt UserRow.updatedAt s.users s'.users s.clock := by
  cases op with
  | insUser p =>
    obtain ⟨h1, h2, rfl⟩ := insertUser_some h
    dsimp only
    intro r hr
    rw [List.mem_append, List.mem_singleton] at hr
    rcases hr with hr | hr
    · exact Or.inl hr
    · subst hr
      exact Or.inr (Or.inr ⟨rfl, rfl⟩)
  | insSession p =>
    obtain ⟨h1, h2, h3, rfl⟩ := insertSession_some h
    intro r hr
    exact Or.inl hr
  | insAccount p =>
    obtain ⟨h1, h2, h3, rfl⟩ := insertAccount_some h
    intro r hr
    exact Or.inl hr
  | insVerification p =>
    obtain ⟨h1, rfl⟩ := insertVerification_some h
    intro r hr
    exact Or.inl hr
  | updUser i p =>
    obtain ⟨h1, rfl⟩ := updateUser_some h
    dsimp only
    intro r hr
    rw [List.mem_map] at hr
    obtain ⟨u, hu, rfl⟩ := hr
    by_cases hc : u.id = i
    · refine Or.inr (Or.inl ⟨u, hu, ?_, ?_, ?_⟩) <;> simp [hc]
    · simp only [if_neg hc]
      exact Or.inl hu
  | updSession i p =>
    obtain ⟨h1, h2, rfl⟩ := updateSession_some h
    intro r hr
    exact Or.inl hr
  | updAccount i p =>
    obtain ⟨h1, h2, rfl⟩ := updateAccount_some h
    intro r hr
    exact Or.inl hr
  | updVerification i p =>
    have hs := updateVerification_some h
    subst hs
    intro r hr
    exact Or.inl hr
  | delUser i =>
    obtain rfl := Option.some.inj h
    intro r hr
    exact Or.inl (List.mem_filter.1 hr).1
  | delSession i =>
    obtain rfl := Option.some.inj h
    intro r hr
    exact Or.inl hr
  | delAccount i =>
    obtain rfl := Option.some.inj h
    intro r hr
    exact Or.inl hr
  | delVerification i =>
    obtain rfl := Option.some.inj h
    intro r hr
    exact Or.inl hr

theorem rowEvol_sessions {s : DBState} {op : Op} {s' : DBState} (h : applyOp s op = some s') :
    rowEvol SessionRow.id SessionRow.createdAt SessionRow.updatedAt
      s.sessions s'.sessions s.clock := by
  cases op with
  | insUser p =>
    obtain ⟨h1, h2, rfl⟩ := insertUser_some h
    intro r hr
    exact Or.inl hr
  | insSession p =>
    obtain ⟨h1, h2, h3, rfl⟩ := insertSession_some h
    dsimp only
    intro r hr
    rw [List.mem_append, List.mem_singleton] at hr
    rcases hr with hr | hr
    · exact Or.inl hr
    · subst hr
      exact Or.inr (Or.inr ⟨rfl, rfl⟩)
  | insAccount p =>
    obtain ⟨h1, h2, h3, rfl⟩ := insertAccount_some h
    intro r hr
    exact Or.inl hr
  | insVerification p =>
    obtain ⟨h1, rfl⟩ := insertVerification_some h
    intro r hr
    exact Or.inl hr
  | updUser i p =>
    obtain ⟨h1, rfl⟩ := updateUser_some h
    intro r hr
    exact Or.inl hr
  | updSession i p =>
    obtain ⟨h1, h2, rfl⟩ := updateSession_some h
    dsimp only
    intro r hr
    rw [List.mem_map] at hr
    obtain ⟨t, ht, rfl⟩ := hr
    by_cases hc : t.id = i
    · refine Or.inr (Or.inl ⟨t, ht, ?_, ?_, ?_⟩) <;> simp [hc]
    · simp only [if_neg hc]
      exact Or.inl ht
  | updAccount i p =>
    obtain ⟨h1, h2, rfl⟩ := updateAccount_some h
    intro r hr
    exact Or.inl hr
  | updVerification i p =>
    have hs := updateVerification_some h
    subst hs
    intro r hr
    exact Or.inl hr
  | delUser i =>
    obtain rfl := Option.some.inj h
    intro r hr
    exact Or.inl (List.mem_filter.1 hr).1
  | delSession i =>
    obtain rfl := Option.some.inj h
    intro r hr
    exact Or.inl (List.mem_filter.1 hr).1
  | delAccount i =>
    obtain rfl := Option.some.inj h
    intro r hr
    exact Or.inl hr
  | delVerification i =>
    obtain rfl := Option.some.inj h
    intro r hr
    exact Or.inl hr

theorem rowEvol_accounts {s : DBState} {op : Op} {s' : DBState} (h : applyOp s op = some s') :
    rowEvol AccountRow.id AccountRow.createdAt AccountRow.updatedAt
      s.accounts s'.accounts s.clock := by
  cases op with
  | insUser p =>
    obtain ⟨h1, h2, rfl⟩ := insertUser_some h
    intro r hr
    exact Or.inl hr
  | insSession p =>
    obtain ⟨h1, h2, h3, rfl⟩ := insertSession_some h
    intro r hr
    exact Or.inl hr
  | insAccount p =>
    obtain ⟨h1, h2, h3, rfl⟩ := insertAccount_some h
    dsimp only
    intro r hr
    rw [List.mem_append, List.mem_singleton] at hr
    rcases hr with hr | hr
    · exact Or.inl hr
    · subst hr
      exact Or.inr (Or.inr ⟨rfl, rfl⟩)
  | insVerification p =>
    obtain ⟨h1, rfl⟩ := insertVerification_some h
    intro r hr
    exact Or.inl hr
  | updUser i p =>
    obtain ⟨h1, rfl⟩ := updateUser_some h
    intro r hr
    exact Or.inl hr
  | updSession i p =>
    obtain ⟨h1, h2, rfl⟩ := updateSession_some h
    intro r hr
    exact Or.inl hr
  | updAccount i p =>
    obtain ⟨h1, h2, rfl⟩ := updateAccount_some h
    dsimp only
    intro r hr
    rw [List.mem_map] at hr
    obtain ⟨a, ha, rfl⟩ := hr
    by_cases hc : a.id = i
    · refine Or.inr (Or.inl ⟨a, ha, ?_, ?_, ?_⟩) <;> simp [hc]
    · simp only [if_neg hc]
      exact Or.inl ha
  | updVerification i p =>
    have hs := updateVerification_some h
    subst hs
    intro r hr
    exact Or.inl hr
  | delUser i =>
    obtain rfl := Option.some.inj h
    intro r hr
    exact Or.inl (List.mem_filter.1 hr).1
  | delSession i =>
    obtain rfl := Option.some.inj h
    intro r hr
    exact Or.inl hr
  | delAccount i =>
    obtain rfl := Option.some.inj h
    intro r hr
    exact Or.inl (List.mem_filter.1 hr).1
  | delVerification i =>
    obtain rfl := Option.some.inj h
    intro r hr
    exact Or.inl hr

theorem rowEvol_verifications {s : DBState} {op : Op} {s' : DBState}
    (h : applyOp s op = some s') :
    rowEvol VerificationRow.id VerificationRow.createdAt VerificationRow.updatedAt
      s.verifications s'.verifications s.clock := by
  cases op with
  | insUser p =>
    obtain ⟨h1, h2, rfl⟩ := insertUser_some h
    intro r hr
    exact Or.inl hr
  | insSession p =>
    obtain ⟨h1, h2, h3, rfl⟩ := insertSession_some h
    intro r hr
    exact Or.inl hr
  | insAccount p =>
    obtain ⟨h1, h2, h3, rfl⟩ := insertAccount_some h
    intro r hr
    exact Or.inl hr
  | insVerification p =>
    obtain ⟨h1, rfl⟩ := insertVerification_some h
    dsimp only
    intro r hr
    rw [List.mem_append, List.mem_singleton] at hr
    rcases hr with hr | hr
    · exact Or.inl hr
    · subst hr
      exact Or.inr (Or.inr ⟨rfl, rfl⟩)
  | updUser i p =>
    obtain ⟨h1, rfl⟩ := updateUser_some h
    intro r hr
    exact Or.inl hr
  | updSession i p =>
    obtain ⟨h1, h2, rfl⟩ := updateSession_some h
    intro r hr
    exact Or.inl hr
  | updAccount i p =>
    obtain ⟨h1, h2, rfl⟩ := updateAccount_some h
    intro r hr
    exact Or.inl hr
  | updVerification i p =>
    have hs := updateVerification_some h
    subst hs
    dsimp only
    intro r hr
    rw [List.mem_map] at hr
    obtain ⟨v, hv, rfl⟩ := hr
    by_cases hc : v.id = i
    · refine Or.inr (Or.inl ⟨v, hv, ?_, ?_, ?_⟩) <;> simp [hc]
    · simp only [if_neg hc]
      exact Or.inl hv
  | delUser i =>
    obtain rfl := Option.some.inj h
    intro r hr
    exact Or.inl hr
  | delSession i =>
    obtain rfl := Option.some.inj h
    intro r hr
    exact Or.inl hr
  | delAccount i =>
    obtain rfl := Option.some.inj h
    intro r hr
    exact Or.inl hr
  | delVerification i =>
    obtain rfl := Option.some.inj h
    intro r hr
    exact Or.inl (List.mem_filter.1 hr).1

end Awwweb

namespace Awwweb

theorem idsEvol_users {s : DBState} {op : Op} {s' : DBState} (h : applyOp s op = some s') :
    idsEvol (s.users.map UserRow.id) (s'.users.map UserRow.id) (genId s.nextId) := by
  cases op with
  | insUser p =>
    obtain ⟨h1, h2, rfl⟩ := insertUser_some h
    refine Or.inl ?_
    dsimp only
    rw [List.map_append]
    simp
  | insSession p =>
    obtain ⟨h1, h2, h3, rfl⟩ := insertSession_some h
    exact Or.inr (Or.inl rfl)
  | insAccount p =>
    obtain ⟨h1, h2, h3, rfl⟩ := insertAccount_some h
    exact Or.inr (Or.inl rfl)
  | insVerification p =>
    obtain ⟨h1, rfl⟩ := insertVerification_some h
    exact Or.inr (Or.inl rfl)
  | updUser i p =>
    obtain ⟨h1, rfl⟩ := updateUser_some h
    refine Or.inr (Or.inl ?_)
    dsimp only
    apply map_map_eq
    intro u
    by_cases hc : u.id = i <;> simp [hc]
  | updSession i p =>
    obtain ⟨h1, h2, rfl⟩ := updateSession_some h
    exact Or.inr (Or.inl rfl)
  | updAccount i p =>
    obtain ⟨h1, h2, rfl⟩ := updateAccount_some h
    exact Or.inr (Or.inl rfl)
  | updVerification i p =>
    have hs := updateVerification_some h
    subst hs
    exact Or.inr (Or.inl rfl)
  | delUser i =>
    obtain rfl := Option.some.inj h
    exact Or.inr (Or.inr ((s.users.filter_sublist).map _))
  | delSession i =>
    obtain rfl := Option.some.inj h
    exact Or.inr (Or.inl rfl)
  | delAccount i =>
    obtain rfl := Option.some.inj h
    exact Or.inr (Or.inl rfl)
  | delVerification i =>
    obtain rfl := Option.some.inj h
    exact Or.inr (Or.inl rfl)

theorem idsEvol_sessions {s : DBState} {op : Op} {s' : DBState} (h : applyOp s op = some s') :
    idsEvol (s.sessions.map SessionRow.id) (s'.sessions.map SessionRow.id)
      (genId s.nextId) := by
  cases op with
  | insUser p =>
    obtain ⟨h1, h2, rfl⟩ := insertUser_some h
    exact Or.inr (Or.inl rfl)
  | insSession p =>
    obtain ⟨h1, h2, h3, rfl⟩ := insertSession_some h
    refine Or.inl ?_
    dsimp only
    rw [List.map_append]
    simp
  | insAccount p =>
    obtain ⟨h1, h2, h3, rfl⟩ := insertAccount_some h
    exact Or.inr (Or.inl rfl)
  | insVerification p =>
    obtain ⟨h1, rfl⟩ := insertVerification_some h
    exact Or.inr (Or.inl rfl)
  | updUser i p =>
    obtain ⟨h1, rfl⟩ := updateUser_some h
    exact Or.inr (Or.inl rfl)
  | updSession i p =>
    obtain ⟨h1, h2, rfl⟩ := updateSession_some h
    refine Or.inr (Or.inl ?_)
    dsimp only
    apply map_map_eq
    intro t
    by_cases hc : t.id = i <;> simp [hc]
  | updAccount i p =>
    obtain ⟨h1, h2, rfl⟩ := updateAccount_some h
    exact Or.inr (Or.inl rfl)
  | updVerification i p =>
    have hs := updateVerification_some h
    subst hs
    exact Or.inr (Or.inl rfl)
  | delUser i =>
    obtain rfl := Option.some.inj h
    exact Or.inr (Or.inr ((s.sessions.filter_sublist).map _))
  | delSession i =>
    obtain rfl := Option.some.inj h
    exact Or.inr (Or.inr ((s.sessions.filter_sublist).map _))
  | delAccount i =>
    obtain rfl := Option.some.inj h
    exact Or.inr (Or.inl rfl)
  | delVerification i =>
    obtain rfl := Option.some.inj h
    exact Or.inr (Or.inl rfl)

theorem idsEvol_accounts {s : DBState} {op : Op} {s' : DBState} (h : applyOp s op = some s') :
    idsEvol (s.accounts.map AccountRow.id) (s'.accounts.map AccountRow.id)
      (genId s.nextId) := by
  cases op with
  | insUser p =>
    obtain ⟨h1, h2, rfl⟩ := insertUser_some h
    exact Or.inr (Or.inl rfl)
  | insSession p =>
    obtain ⟨h1, h2, h3, rfl⟩ := insertSession_some h
    exact Or.inr (Or.inl rfl)
  | insAccount p =>
    obtain ⟨h1, h2, h3, rfl⟩ := insertAccount_some h
    refine Or.inl ?_
    dsimp only
    rw [List.map_append]
    simp
  | insVerification p =>
    obtain ⟨h1, rfl⟩ := insertVerification_some h
    exact Or.inr (Or.inl rfl)
  | updUser i p =>
    obtain ⟨h1, rfl⟩ := updateUser_some h
    exact Or.inr (Or.inl rfl)
  | updSession i p =>
    obtain ⟨h1, h2, rfl⟩ := updateSession_some h
    exact Or.inr (Or.inl rfl)
  | updAccount i p =>
    obtain ⟨h1, h2, rfl⟩ := updateAccount_some h
    refine Or.inr (Or.inl ?_)
    dsimp only
    apply map_map_eq
    intro a
    by_cases hc : a.id = i <;> simp [hc]
  | updVerification i p =>
    have hs := updateVerification_some h
    subst hs
    exact Or.inr (Or.inl rfl)
  | delUser i =>
    obtain rfl := Option.some.inj h
    exact Or.inr (Or.inr ((s.accounts.filter_sublist).map _))
  | delSession i =>
    obtain rfl := Option.some.inj h
    exact Or.inr (Or.inl rfl)
  | delAccount i =>
    obtain rfl := Option.some.inj h
    exact Or.inr (Or.inr ((s.accounts.filter_sublist).map _))
  | delVerification i =>
    obtain rfl := Option.some.inj h
    exact Or.inr (Or.inl rfl)

theorem idsEvol_verifications {s : DBState} {op : Op} {s' : DBState}
    (h : applyOp s op = some s') :
    idsEvol (s.verifications.map VerificationRow.id) (s'.verifications.map VerificationRow.id)
      (genId s.nextId) := by
  cases op with
  | insUser p =>
    obtain ⟨h1, h2, rfl⟩ := insertUser_some h
    exact Or.inr (Or.inl rfl)
  | insSession p =>
    obtain ⟨h1, h2, h3, rfl⟩ := insertSession_some h
    exact Or.inr (Or.inl rfl)
  | insAccount p =>
    obtain ⟨h1, h2, h3, rfl⟩ := insertAccount_some h
    exact Or.inr (Or.inl rfl)
  | insVerification p =>
    obtain ⟨h1, rfl⟩ := insertVerification_some h
    refine Or.inl ?_
    dsimp only
    rw [List.map_append]
    simp
  | updUser i p =>
    obtain ⟨h1, rfl⟩ := updateUser_some h
    exact Or.inr (Or.inl rfl)
  | updSession i p =>
    obtain ⟨h1, h2, rfl⟩ := updateSession_some h
    exact Or.inr (Or.inl rfl)
  | updAccount i p =>
    obtain ⟨h1, h2, rfl⟩ := updateAccount_some h
    exact Or.inr (Or.inl rfl)
  | updVerification i p =>
    have hs := updateVerification_some h
    subst hs
    refine Or.inr (Or.inl ?_)
    dsimp only
    apply map_map_eq
    intro v
    by_cases hc : v.id = i <;> simp [hc]
  | delUser i =>
    obtain rfl := Option.some.inj h
    exact Or.inr (Or.inl rfl)
  | delSession i =>
    obtain rfl := Option.some.inj h
    exact Or.inr (Or.inl rfl)
  | delAccount i =>
    obtain rfl := Option.some.inj h
    exact Or.inr (Or.inl rfl)
  | delVerification i =>
    obtain rfl := Option.some.inj h
    exact Or.inr (Or.inr ((s.verifications.filter_sublist).map _))

end Awwweb

namespace Awwweb

/-! ## Claim theorems -/

/-- C1: in every reachable state every session's `user_id` references an
existing user, and deleting a user removes every session row and account row
referencing it, leaving no row in `sessions` or `accounts` (nor the user row
itself) with the deleted id. -/
theorem c1_session_fk_and_user_delete_cascade :
    ∀ s : DBState, Reachable s →
      (∀ t ∈ s.sessions, ∃ u ∈ s.users, u.id = t.userId) ∧
      (∀ uid : String,
        applyOp s (Op.delUser uid) = some (deleteUser s uid) ∧
        (∀ t ∈ (deleteUser s uid).sessions, ¬ t.userId = uid) ∧
        (∀ a ∈ (deleteUser s uid).accounts, ¬ a.userId = uid) ∧
        (∀ u ∈ (deleteUser s uid).users, ¬ u.id = uid)) := by
  intro s hs
  refine ⟨(reachable_inv hs).sFK, ?_⟩
  intro uid
  refine ⟨rfl, ?_, ?_, ?_⟩
  · intro t ht
    have h2 := (List.mem_filter.1 ht).2
    simpa using h2
  · intro a ha
    have h2 := (List.mem_filter.1 ha).2
    simpa using h2
  · intro u hu
    have h2 := (List.mem_filter.1 hu).2
    simpa using h2

/-- Witness for C1 at the concrete reachable demonstration state. -/
theorem c1_session_fk_and_user_delete_cascade_witness :
    Reachable demoState ∧
    ((∀ t ∈ demoState.sessions, ∃ u ∈ demoState.users, u.id = t.userId) ∧
     (∀ uid : String,
        applyOp demoState (Op.delUser uid) = some (deleteUser demoState uid) ∧
        (∀ t ∈ (deleteUser demoState uid).sessions, ¬ t.userId = uid) ∧
        (∀ a ∈ (deleteUser demoState uid).accounts, ¬ a.userId = uid) ∧
        (∀ u ∈ (deleteUser demoState uid).users, ¬ u.id = uid))) :=
  ⟨⟨demoOps, rfl⟩, c1_session_fk_and_user_delete_cascade demoState ⟨demoOps, rfl⟩⟩

/-- C2: in every reachable state no two account rows share the same
`(provider_id, account_id)` pair, and an insert whose pair already exists
fails and leaves the state unchanged. -/
theorem c2_account_pair_unique_insert_fails :
    ∀ s : DBState, Reachable s →
      (s.accounts.map (fun a => (a.providerId, a.accountId))).Nodup ∧
      (∀ p : InsertAccount,
        (∃ a ∈ s.accounts, a.providerId = p.providerId ∧ a.accountId = p.accountId) →
        insertAccount s p = none ∧ runOps s [Op.insAccount p] = s) := by
  intro s hs
  refine ⟨(reachable_inv hs).aPairs, ?_⟩
  intro p hdup
  have hnone : insertAccount s p = none := by
    unfold insertAccount
    rw [if_pos hdup]
  refine ⟨hnone, ?_⟩
  show runOps ((insertAccount s p).getD s) [] = s
  rw [hnone]
  rfl

/-- Witness for C2: re-inserting the demonstration account's pair fails. -/
theorem c2_account_pair_unique_insert_fails_witness :
    Reachable demoState ∧
    insertAccount demoState demoAccount = none ∧
    runOps demoState [Op.insAccount demoAccount] = demoState :=
  ⟨⟨demoOps, rfl⟩,
   (c2_account_pair_unique_insert_fails demoState ⟨demoOps, rfl⟩).2 demoAccount (by decide)⟩

/-- C3: in every reachable state no two users share an email, and an insert
whose email already exists fails and leaves the state unchanged. -/
theorem c3_user_email_unique_insert_fails :
    ∀ s : DBState, Reachable s →
      (s.users.map UserRow.email).Nodup ∧
      (∀ p : InsertUser,
        (∃ u ∈ s.users, u.email = p.email) →
        insertUser s p = none ∧ runOps s [Op.insUser p] = s) := by
  intro s hs
  refine ⟨(reachable_inv hs).uEmails, ?_⟩
  intro p hdup
  have hnone : insertUser s p = none := by
    unfold insertUser
    rw [if_pos hdup]
  refine ⟨hnone, ?_⟩
  show runOps ((insertUser s p).getD s) [] = s
  rw [hnone]
  rfl

/-- Witness for C3: re-inserting the demonstration user's email fails. -/
theorem c3_user_email_unique_insert_fails_witness :
    Reachable demoState ∧
    insertUser demoState demoUser = none ∧
    runOps demoState [Op.insUser demoUser] = demoState :=
  ⟨⟨demoOps, rfl⟩,
   (c3_user_email_unique_insert_fails demoState ⟨demoOps, rfl⟩).2 demoUser (by decide)⟩

end Awwweb

namespace Awwweb

/-- C5: in every reachable state every row of every table satisfies
`created_at ≤ updated_at`, and across any successful statement every
resulting row either is an untouched old row, or keeps its id and
`created_at` while getting `updated_at` refreshed to the statement's clock
instant, or is a fresh insert with both timestamps set to that instant.
The timestamp column helpers are modelled from the spec (their source file
`app/.server/utils.ts` is not part of the provided sources). -/
theorem c5_timestamps :
    ∀ s : DBState, Reachable s →
      ((∀ u ∈ s.users, u.createdAt ≤ u.updatedAt) ∧
       (∀ t ∈ s.sessions, t.createdAt ≤ t.updatedAt) ∧
       (∀ a ∈ s.accounts, a.createdAt ≤ a.updatedAt) ∧
       (∀ v ∈ s.verifications, v.createdAt ≤ v.updatedAt)) ∧
      (∀ op : Op, ∀ s' : DBState, applyOp s op = some s' →
        rowEvol UserRow.id UserRow.createdAt UserRow.updatedAt s.users s'.users s.clock ∧
        rowEvol SessionRow.id SessionRow.createdAt SessionRow.updatedAt
          s.sessions s'.sessions s.clock ∧
        rowEvol AccountRow.id AccountRow.createdAt AccountRow.updatedAt
          s.accounts s'.accounts s.clock ∧
        rowEvol VerificationRow.id VerificationRow.createdAt VerificationRow.updatedAt
          s.verifications s'.verifications s.clock) := by
  intro s hs
  have inv := reachable_inv hs
  refine ⟨⟨fun u hu => (inv.uTime u hu).1, fun t ht => (inv.sTime t ht).1,
    fun a ha => (inv.aTime a ha).1, fun v hv => (inv.vTime v hv).1⟩, ?_⟩
  intro op s' h
  exact ⟨rowEvol_users h, rowEvol_sessions h, rowEvol_accounts h, rowEvol_verifications h⟩

/-- Witness for C5 at the concrete reachable demonstration state. -/
theorem c5_timestamps_witness :
    Reachable demoState ∧
    (∀ u ∈ demoState.users, u.createdAt ≤ u.updatedAt) ∧
    (∀ v ∈ demoState.verifications, v.createdAt ≤ v.updatedAt) :=
  ⟨⟨demoOps, rfl⟩,
   ((c5_timestamps demoState ⟨demoOps, rfl⟩).1).1,
   ((c5_timestamps demoState ⟨demoOps, rfl⟩).1).2.2.2⟩

/-- C8: in every reachable state the primary-key ids of every table are
pairwise distinct and all come from the generator (applied to counters below
the current freshness counter), and across any successful statement each
table's id column either gains exactly the freshly generated id (insert),
stays exactly the same (update), or loses ids (delete) — ids are assigned at
creation and never reassigned.  The cuid2 generator is modelled from the spec
(its source file `app/.server/utils.ts` is not part of the provided
sources). -/
theorem c8_primary_keys_generated_and_stable :
    ∀ s : DBState, Reachable s →
      ((s.users.map UserRow.id).Nodup ∧ (s.sessions.map SessionRow.id).Nodup ∧
       (s.accounts.map AccountRow.id).Nodup ∧ (s.verifications.map VerificationRow.id).Nodup) ∧
      ((∀ u ∈ s.users, ∃ k, k < s.nextId ∧ u.id = genId k) ∧
       (∀ t ∈ s.sessions, ∃ k, k < s.nextId ∧ t.id = genId k) ∧
       (∀ a ∈ s.accounts, ∃ k, k < s.nextId ∧ a.id = genId k) ∧
       (∀ v ∈ s.verifications, ∃ k, k < s.nextId ∧ v.id = genId k)) ∧
      (∀ op : Op, ∀ s' : DBState, applyOp s op = some s' →
        idsEvol (s.users.map UserRow.id) (s'.users.map UserRow.id) (genId s.nextId) ∧
        idsEvol (s.sessions.map SessionRow.id) (s'.sessions.map SessionRow.id)
          (genId s.nextId) ∧
        idsEvol (s.accounts.map AccountRow.id) (s'.accounts.map AccountRow.id)
          (genId s.nextId) ∧
        idsEvol (s.verifications.map VerificationRow.id)
          (s'.verifications.map VerificationRow.id) (genId s.nextId)) := by
  intro s hs
  have inv := reachable_inv hs
  refine ⟨⟨inv.uIds, inv.sIds, inv.aIds, inv.vIds⟩,
    ⟨inv.uGen, inv.sGen, inv.aGen, inv.vGen⟩, ?_⟩
  intro op s' h
  exact ⟨idsEvol_users h, idsEvol_sessions h, idsEvol_accounts h, idsEvol_verifications h⟩

/-- Witness for C8 at the concrete reachable demonstration state. -/
theorem c8_primary_keys_generated_and_stable_witness :
    Reachable demoState ∧
    (demoState.users.map UserRow.id).Nodup ∧
    (∀ v ∈ demoState.verifications, ∃ k, k < demoState.nextId ∧ v.id = genId k) :=
  ⟨⟨demoOps, rfl⟩,
   ((c8_primary_keys_generated_and_stable demoState ⟨demoOps, rfl⟩).1).1,
   ((c8_primary_keys_generated_and_stable demoState ⟨demoOps, rfl⟩).2).1.2.2.2⟩

/-- C9: the verifications table has no uniqueness constraint besides its
primary key, inserting a verification always succeeds in any reachable state
(in particular when a row with the same identifier and value already exists),
and a reachable state exists in which two rows share identifier and value
with distinct ids, so a lookup by identifier/value matches two rows. -/
theorem c9_verifications_allow_duplicate_identifier_value :
    (Schema.verifications.uniques = [] ∧
     ∀ c ∈ Schema.verifications.columns, c.isUnique = false) ∧
    (∀ s : DBState, Reachable s → ∀ p : InsertVerification,
      ∃ s', insertVerification s p = some s') ∧
    ((lookupVerifications dupVerState ("a") ("b")).length = 2 ∧
     ∃ v1 ∈ dupVerState.verifications, ∃ v2 ∈ dupVerState.verifications,
       ¬ v1.id = v2.id ∧ v1.identifier = "a" ∧ v1.value = "b" ∧
       v2.identifier = "a" ∧ v2.value = "b") := by
  refine ⟨by decide, ?_, by decide⟩
  intro s hs p
  have inv := reachable_inv hs
  have hfree : ¬ ∃ v ∈ s.verifications, v.id = genId s.nextId :=
    genId_fresh VerificationRow.id s.verifications s.nextId inv.vGen
  have hins : insertVerification s p =
      some { s with
        verifications := s.verifications ++
          [{ id := genId s.nextId, identifier := p.identifier, value := p.value,
             expiresAt := p.expiresAt, createdAt := s.clock, updatedAt := s.clock }],
        nextId := s.nextId + 1, clock := s.clock + 1 } := by
    unfold insertVerification
    rw [if_neg hfree]
  exact ⟨_, hins⟩

/-- Witness for C9: inserting a duplicate identifier/value pair into the
duplicate-holding reachable state succeeds again. -/
theorem c9_verifications_allow_duplicate_identifier_value_witness :
    Reachable dupVerState ∧
    ∃ s', insertVerification dupVerState
      { identifier := "a", value := "b", expiresAt := 0 } = some s' :=
  ⟨⟨dupVerOps, rfl⟩,
   (c9_verifications_allow_duplicate_identifier_value.2).1 dupVerState ⟨dupVerOps, rfl⟩
     { identifier := "a", value := "b", expiresAt := 0 }⟩

end Awwweb

namespace Awwweb

/-- C6 as stated is false on the source: the accounts table's foreign-key
column toward `users` is declared `text("userId")`, so no column of the
accounts table is simultaneously named `"user_id"` and a foreign key to
`users.id` — the schema has no accounts column named `"user_id"` at all. -/
theorem c6_counterexample_fk_column_not_named_user_id :
    ¬ ∃ c ∈ Schema.accounts.columns, c.name = "user_id" ∧ c.notNull = true ∧
      c.fk = some { table := "users", column := "id", onDelete := some OnDeleteRule.cascade } := by
  decide

/-- C6 (amended): the accounts table's foreign-key column referencing users
is named `"userId"`, is required (not null), and is declared with cascade
delete toward `users.id`; it is the only accounts column carrying a foreign
key. -/
theorem c6_account_fk_column_userId_cascade :
    (∃ c ∈ Schema.accounts.columns, c.name = "userId" ∧ c.notNull = true ∧
      c.fk = some { table := "users", column := "id", onDelete := some OnDeleteRule.cascade }) ∧
    (∀ c ∈ Schema.accounts.columns, ¬ c.fk = none → c.name = "userId") := by
  decide

/-- C7: the verifications table declares no foreign key on any column, and
its `identifier`, `value` and `expires_at` columns are all required. -/
theorem c7_verifications_no_fk_required_columns :
    (∀ c ∈ Schema.verifications.columns, c.fk = none) ∧
    (∃ c ∈ Schema.verifications.columns, c.name = "identifier" ∧ c.notNull = true) ∧
    (∃ c ∈ Schema.verifications.columns, c.name = "value" ∧ c.notNull = true) ∧
    (∃ c ∈ Schema.verifications.columns, c.name = "expires_at" ∧ c.notNull = true) := by
  decide

end Awwweb
